import Mathlib

/-!
Verification development for the SiliconSchema repository
(`src/silicon_schema/build.py` and `src/silicon_schema/validate.py`).

The Python code is shallowly embedded: YAML documents become Lean
structures whose `Option` fields model possibly-missing dictionary keys
(a bracket access `d['k']` becomes `getKey "k"` in the `Except` monad,
mirroring Python's `KeyError`; a `.get(k, default)` becomes `Option.getD`).
The file system is abstracted by `FileResult` values (absent / malformed
YAML / parsed data) supplied per path, and generated files are modelled
as their list of text lines (the source joins them with newlines).
The external `jsonschema` library is modelled as a capability: a function
from the parsed document to its full list of violations, exactly as the
specification treats it.
-/

set_option autoImplicit false

namespace SiliconSchema

/-- A Python exception relevant to the embedded code: `KeyError` from a
dictionary bracket access, or a YAML parse error raised by `load_yaml`. -/
inductive PyError where
  | keyError (key : String)
  | parseError (msg : String)
deriving DecidableEq

/-- One entry of a shared pinmux table: `{function, select}` (values kept
as their formatted text, since the source only interpolates them). -/
structure PinmuxEntry where
  function : String
  select : String
deriving DecidableEq

/-- One pin of a variant's pin list: `{number, pad}`. -/
structure Pin where
  number : String
  pad : String
deriving DecidableEq

/-- A pad definition: required `type`, optional `description` and `notes`
(the source tests membership with `in` before reading the latter two). -/
structure PadDef where
  type : String
  description : Option String
  notes : Option String
deriving DecidableEq

/-- One memory entry of a variant; `mpi` is read with `.get('mpi')`,
so it may be absent (or null, both modelled as `none`). -/
structure MemEntry where
  mpi : Option String
deriving DecidableEq

/-- One chip variant. The build reads `part_number`, `description`,
`package` and `pins` with bracket accesses (hence `Option` + `getKey`);
the validator reads `part_number` and `memory` with `.get`. -/
structure Variant where
  part_number : Option String
  description : Option String
  package : Option String
  pins : Option (List Pin)
  memory : Option (List MemEntry)
deriving DecidableEq

/-- One element of the `docs` list: the `.items()` view of a one-level
dictionary `{docType -> {locale -> url}}`. -/
abbrev DocEntry := List (String × List (String × String))

/-- A parsed `chip.yaml` document. Every field the source accesses with
brackets is an `Option`; `shared_pinmux` is `none` when the key is absent. -/
structure ChipYaml where
  schema_version : Option String
  model_id : Option String
  lifecycle : Option String
  docs : Option (List DocEntry)
  pads : Option (List (String × PadDef))
  variants : Option (List Variant)
  shared_pinmux : Option String
deriving DecidableEq

/-- A parsed `pinmux.yaml` document; the source reads it with
`pinmux_data.get('pinmux', {})`. -/
structure PinmuxData where
  pinmux : Option (List (String × List PinmuxEntry))
deriving DecidableEq

/-- One MPI configuration; `sip` is read with `.get('sip', False)`. -/
structure MpiConfig where
  sip : Option Bool
deriving DecidableEq

/-- A parsed `mpi.yaml` document; `mpis` is read with `.get('mpis', {})`. -/
structure MpiData where
  mpis : Option (List (String × MpiConfig))
deriving DecidableEq

/-- The state of one file on disk, as the code observes it: the path does
not exist, the file exists but `load_yaml` raises, or it parses to data. -/
inductive FileResult (α : Type) where
  | absent
  | malformed (msg : String)
  | parsed (data : α)
deriving DecidableEq

/-- A Python bracket access `d[key]`: the value when the key is present,
otherwise a raised `KeyError`. -/
def getKey {α : Type} (key : String) : Option α → Except PyError α
  | some a => .ok a
  | none => .error (.keyError key)

/-! ## Merger (`build.py`) -/

/-- One line of the `docs` section (`build.py` line 70). -/
def docLine (doc_type : String) (locales : List (String × String)) : String :=
  "  - " ++ (doc_type ++ ": \x7b" ++
    String.intercalate ", " (locales.map (fun lu => lu.1 ++ ": \"" ++ lu.2 ++ "\"")) ++ "\x7d")

/-- The lines contributed by one `docs` entry (inner loop of lines 66-70). -/
def docEntryLines (d : DocEntry) : List String :=
  d.map (fun pr => docLine pr.1 pr.2)

/-- One pinmux entry line under a pad (`build.py` line 96). -/
def pinmuxEntryLine (e : PinmuxEntry) : String :=
  "      - \x7bfunction: " ++ e.function ++ ", select: " ++ e.select ++ "\x7d"

/-- The lines emitted for one pad (`build.py` lines 77-96): anchor line,
`type`, optional `description`/`notes`, and a `pinmux` list exactly when
the pad's name is a key of the shared pinmux mapping. -/
def padBlock (pinmux_map : List (String × List PinmuxEntry)) (p : String × PadDef) : List String :=
  ("  " ++ p.1 ++ ": &" ++ p.1) ::
  ("    type: " ++ p.2.type) ::
  ((match p.2.description with
    | some d => ["    description: \"" ++ d ++ "\""]
    | none => []) ++
   (match p.2.notes with
    | some n => ["    notes: \"" ++ n ++ "\""]
    | none => []) ++
   (match pinmux_map.lookup p.1 with
    | some entries => "    pinmux:" :: entries.map pinmuxEntryLine
    | none => []))

/-- One pin line under the defining pin list (`build.py` line 120). -/
def pinLine (p : Pin) : String :=
  "      - \x7bnumber: \"" ++ p.number ++ "\", pad: *" ++ p.pad ++ "\x7d"

/-- The anchor name for the shared pin list (`build.py` line 116): the
model id followed by the literal token `_QFN68_PINS`. -/
def pinsAnchorName (model_id : String) : String := model_id ++ "_QFN68_PINS"

/-- The variants loop of `generate_series_yaml` (lines 104-123), with the
`first_pins_anchor` loop state made explicit. Each variant's
`part_number`, `description`, `package` and `pins` are bracket accesses;
while the anchor is unset the variant's pins are emitted as the defining
anchored node, afterwards only a bare alias line is emitted. -/
def variantsLoop (model_id : String) : Option String → List Variant → Except PyError (List String)
  | _, [] => .ok []
  | anchor?, v :: rest => do
    let pn ← getKey "part_number" v.part_number
    let desc ← getKey "description" v.description
    let pkg ← getKey "package" v.package
    let pins ← getKey "pins" v.pins
    let metaLines := ["  - part_number: " ++ pn,
                      "    description: \"" ++ desc ++ "\"",
                      "    package: " ++ pkg]
    match anchor? with
    | none =>
      let a := pinsAnchorName model_id
      let tail ← variantsLoop model_id (some a) rest
      pure (metaLines ++ ("    pins: &" ++ a) :: pins.map pinLine ++ tail)
    | some a =>
      let tail ← variantsLoop model_id (some a) rest
      pure (metaLines ++ ("    pins: *" ++ a) :: tail)

/-- `generate_series_yaml` (`build.py` lines 49-126), producing the list of
output lines (the source joins them with newlines). -/
def generate_series_yaml (chip_yaml : ChipYaml) (pinmux_data : PinmuxData) :
    Except PyError (List String) := do
  let sv ← getKey "schema_version" chip_yaml.schema_version
  let mid ← getKey "model_id" chip_yaml.model_id
  let lc ← getKey "lifecycle" chip_yaml.lifecycle
  let docs ← getKey "docs" chip_yaml.docs
  let pinmux_map := pinmux_data.pinmux.getD []
  let pads ← getKey "pads" chip_yaml.pads
  let variants ← getKey "variants" chip_yaml.variants
  let vlines ← variantsLoop mid none variants
  pure (("schema_version: " ++ sv) :: ("model_id: " ++ mid) :: ("lifecycle: " ++ lc) :: "" ::
        "docs:" :: (docs.flatMap docEntryLines ++ "" ::
        "pads:" :: (pads.flatMap (padBlock pinmux_map) ++ "" ::
        "variants:" :: (vlines ++ [""]))))

/-- The warning printed when a named shared pinmux table is missing
(`build.py` line 152). -/
def pinmuxWarning (name : String) : String :=
  "    Warning: shared pinmux '" ++ name ++ "' not found"

/-- A `PinmuxData` playing the role of the Python `{}` default. -/
def emptyPinmux : PinmuxData := ⟨none⟩

/-- The observable outcome of one `build_chip` call: it either raised an
exception, or terminated normally with its warnings, the written file (if
any) and its boolean return value. -/
inductive BuildStep where
  | raised (warnings : List String) (e : PyError)
  | done (warnings : List String) (written : Option (List String)) (returned : Bool)
deriving DecidableEq

/-- `build_chip` (`build.py` lines 129-162). An absent `chip.yaml` is
skipped with return value `True`; malformed YAML raises; a named shared
pinmux table is loaded when its file exists, warned about and replaced by
the empty table when absent; the generated content is written and `True`
returned. -/
def build_chip (chipFile : FileResult ChipYaml)
    (lookupPinmux : String → FileResult PinmuxData) : BuildStep :=
  match chipFile with
  | .absent => .done [] none true
  | .malformed e => .raised [] (.parseError e)
  | .parsed chip_data =>
    match chip_data.shared_pinmux with
    | none =>
      match generate_series_yaml chip_data emptyPinmux with
      | .error e => .raised [] e
      | .ok content => .done [] (some content) true
    | some name =>
      match lookupPinmux name with
      | .malformed e => .raised [] (.parseError e)
      | .absent =>
        match generate_series_yaml chip_data emptyPinmux with
        | .error e => .raised [pinmuxWarning name] e
        | .ok content => .done [pinmuxWarning name] (some content) true
      | .parsed pinmux_data =>
        match generate_series_yaml chip_data pinmux_data with
        | .error e => .raised [] e
        | .ok content => .done [] (some content) true

/-- The accumulated state of a whole build run: files written so far,
warnings so far, and the driver's `success` flag. -/
structure RunState where
  written : List (String × List String)
  warnings : List String
  success : Bool
deriving DecidableEq

/-- The all-chips loop of `build.py` `main` (lines 208-213). Chips are
processed in order; a chip whose `build_chip` raises stops the whole run
there (the exception is uncaught in the source), with the state as
accumulated so far; a normal return folds the written file, warnings and
return value into the state. -/
def build_all (lookupPinmux : String → FileResult PinmuxData) :
    List (String × FileResult ChipYaml) → RunState → RunState × Option PyError
  | [], st => (st, none)
  | (name, cf) :: rest, st =>
    match build_chip cf lookupPinmux with
    | .raised w e => ({ st with warnings := st.warnings ++ w }, some e)
    | .done w written ret =>
      build_all lookupPinmux rest
        { written := st.written ++ (match written with | some c => [(name, c)] | none => []),
          warnings := st.warnings ++ w,
          success := st.success && ret }

/-! ## Validator (`validate.py`) -/

/-- One violation as returned by the schema-validation capability:
a path into the document plus a human-readable message. -/
structure SchemaViolation where
  absolute_path : List String
  message : String
deriving DecidableEq

/-- The dotted path of a violation (`validate.py` line 91):
`'.'.join(...) or '(root)'`. -/
def dottedPath (path : List String) : String :=
  let j := String.intercalate "." path
  if j.isEmpty then "(root)" else j

/-- The formatted line for one schema violation (`validate.py` line 92). -/
def violationLine (e : SchemaViolation) : String :=
  "  " ++ dottedPath e.absolute_path ++ ": " ++ e.message

/-- `validate_chip` (`validate.py` lines 68-95). The schema validator is
passed as the capability `check`, returning all violations of the parsed
document. A missing `series.yaml` yields success with a skip message;
malformed YAML fails; otherwise the verdict is the emptiness of the
violation list, every violation formatted with its dotted path. -/
def validate_chip {α : Type} (seriesFile : FileResult α)
    (check : α → List SchemaViolation) : Bool × List String :=
  match seriesFile with
  | .absent => (true, ["Skipped: no series.yaml found"])
  | .malformed e => (false, ["YAML parse error: " ++ e])
  | .parsed data =>
    let validation_errors := check data
    if validation_errors.isEmpty then (true, [])
    else (false, validation_errors.map violationLine)

/-- `get_sip_mpis` (`validate.py` lines 34-41): the names whose config has
a true `sip` flag, in table order (the source builds a set; names are
unique dictionary keys, so a list preserves exactly the membership). -/
def get_sip_mpis (mpi_data : MpiData) : List String :=
  (mpi_data.mpis.getD []).filterMap (fun pr => if pr.2.sip.getD false then some pr.1 else none)

/-- Insertion step of string sorting (for Python's `sorted`). -/
def insertStr (x : String) : List String → List String
  | [] => [x]
  | y :: ys => if x ≤ y then x :: y :: ys else y :: insertStr x ys

/-- Sorting of strings, modelling Python's `sorted` in the error text. -/
def sortStrs : List String → List String
  | [] => []
  | x :: xs => insertStr x (sortStrs xs)

/-- The `', '.join(sorted(sip_mpis)) or 'none'` fragment of the message. -/
def sipListText (sip_mpis : List String) : String :=
  let j := String.intercalate ", " (sortStrs sip_mpis)
  if j.isEmpty then "none" else j

/-- The error message of `validate_memory_sip` (`validate.py` lines 60-63). -/
def sipErrMsg (part_number mpi : String) (sip_mpis : List String) : String :=
  "Variant '" ++ part_number ++ "': memory uses '" ++ mpi ++
  "' which is not a SiP interface. Only SiP MPIs (" ++ sipListText sip_mpis ++
  ") can have memory defined."

/-- `validate_memory_sip` (`validate.py` lines 44-65): for every variant
and every memory entry, a truthy `mpi` value outside the SiP set appends
one error message. -/
def validate_memory_sip (chip_data : ChipYaml) (sip_mpis : List String) : List String :=
  (chip_data.variants.getD []).flatMap (fun variant =>
    (variant.memory.getD []).filterMap (fun mem =>
      match mem.mpi with
      | none => none
      | some mpi =>
        if !mpi.isEmpty && !sip_mpis.contains mpi then
          some (sipErrMsg (variant.part_number.getD "unknown") mpi sip_mpis)
        else none))

/-- `validate_chip_source` (`validate.py` lines 98-140). Absent
`chip.yaml` or falsy `shared_pinmux` or absent `mpi.yaml` skip the check
successfully; malformed files fail; otherwise the SiP memory errors
decide the verdict. -/
def validate_chip_source (chipFile : FileResult ChipYaml)
    (mpiFiles : String → FileResult MpiData) : Bool × List String :=
  match chipFile with
  | .absent => (true, [])
  | .malformed e => (false, ["chip.yaml parse error: " ++ e])
  | .parsed chip_data =>
    match chip_data.shared_pinmux with
    | none => (true, [])
    | some sp =>
      if sp.isEmpty then (true, [])
      else
        match mpiFiles sp with
        | .absent => (true, [])
        | .malformed e => (false, ["mpi.yaml parse error: " ++ e])
        | .parsed mpi_data =>
          let memory_errors := validate_memory_sip chip_data (get_sip_mpis mpi_data)
          if memory_errors.isEmpty then (true, []) else (false, memory_errors)

/-- What the validator's `main` reports for one chip. -/
inductive ChipReport where
  | valid
  | invalid (msgs : List String)
  | skipped (msg : String)
deriving DecidableEq

/-- The per-chip body of `validate.py` `main` (lines 208-232): run
`validate_chip` on the generated file; when it succeeded and the source
directory exists, also run `validate_chip_source` and let a failure there
override the verdict; report valid / skipped (success with a message) /
invalid accordingly. -/
def process_one {α : Type} (check : α → List SchemaViolation) (seriesFile : FileResult α)
    (sourceExists : Bool) (chipFile : FileResult ChipYaml)
    (mpiFiles : String → FileResult MpiData) : ChipReport :=
  let r := validate_chip seriesFile check
  let r2 :=
    if r.1 && sourceExists then
      let s := validate_chip_source chipFile mpiFiles
      if s.1 then r else (false, s.2)
    else r
  if r2.1 then
    match r2.2 with
    | [] => .valid
    | m :: _ => .skipped m
  else .invalid r2.2

/-- The counters of `validate.py` `main`: `validated`, `failed`,
`all_success`. -/
structure Summary where
  validated : Nat
  failed : Nat
  all_success : Bool
deriving DecidableEq

/-- How one chip's report updates the run counters (lines 221-232):
valid increments `validated`; skipped touches nothing; invalid increments
`failed` and clears `all_success`. -/
def tally (s : Summary) : ChipReport → Summary
  | .valid => { s with validated := s.validated + 1 }
  | .skipped _ => s
  | .invalid _ => { s with failed := s.failed + 1, all_success := false }

/-- Whether a report is the invalid one. -/
def isInvalid : ChipReport → Bool
  | .invalid _ => true
  | _ => false

/-- Closed form of the lines one variant contributes to the variants
section once the pins anchor exists: its three metadata lines and a bare
alias line, with no pin content at all. -/
def aliasVariantBlock (a : String) (v : Variant) : List String :=
  ["  - part_number: " ++ v.part_number.getD "",
   "    description: \"" ++ v.description.getD "" ++ "\"",
   "    package: " ++ v.package.getD "",
   "    pins: *" ++ a]

/-- Offenders of the SiP rule, stated the specification's way: for every
variant, every memory entry referencing an MPI name (a present, non-empty
`mpi` value) not in the SiP set produces the pair (part number, MPI name)
of one violation. -/
def specSipOffenders (chip_data : ChipYaml) (sip_mpis : List String) :
    List (String × String) :=
  (chip_data.variants.getD []).flatMap (fun variant =>
    (variant.memory.getD []).filterMap (fun mem =>
      match mem.mpi with
      | none => none
      | some mpi =>
        if !mpi.isEmpty && !sip_mpis.contains mpi then
          some (variant.part_number.getD "unknown", mpi)
        else none))

/-- Two variants agreeing on every field the alias branch of the variants
loop uses: the three metadata values, and presence of a pins list (of
arbitrary content). -/
def sameMeta (u v : Variant) : Prop :=
  u.part_number = v.part_number ∧ u.description = v.description ∧
  u.package = v.package ∧ u.pins.isSome = true ∧ v.pins.isSome = true

/-! ## Helper lemmas -/

@[simp] lemma exceptBind_ok {α β : Type} (a : α) (f : α → Except PyError β) :
    (Except.ok a >>= f : Except PyError β) = f a := rfl

@[simp] lemma exceptBind_error {α β : Type} (e : PyError) (f : α → Except PyError β) :
    (Except.error e >>= f : Except PyError β) = Except.error e := rfl

@[simp] lemma exceptMap_ok {α β : Type} (f : α → β) (a : α) :
    (f <$> (Except.ok a : Except PyError α)) = Except.ok (f a) := rfl

@[simp] lemma exceptMap_error {α β : Type} (f : α → β) (e : PyError) :
    (f <$> (Except.error e : Except PyError α)) = Except.error e := rfl

@[simp] lemma exceptPure_ok {α : Type} (a : α) :
    (pure a : Except PyError α) = Except.ok a := rfl

lemma ne_of_data_idx (a b : String) (i : Nat) (h : a.data[i]? ≠ b.data[i]?) : a ≠ b :=
  fun e => h (by rw [e])

lemma data_idx_append1 (p s : String) (i : Nat) (h : i < p.data.length) :
    (p ++ s).data[i]? = p.data[i]? := by
  rw [String.data_append, List.getElem?_append_left h]

lemma docLine_ne_pinmux (t : String) (ls : List (String × String)) :
    docLine t ls ≠ "    pinmux:" := by
  apply ne_of_data_idx _ _ 2
  rw [docLine, data_idx_append1 _ _ 2 (by decide)]
  decide

lemma padAnchor_ne_pinmux (name : String) :
    ("  " ++ name ++ ": &" ++ name) ≠ "    pinmux:" := by
  intro e
  have h : '&' ∈ ("  " ++ name ++ ": &" ++ name).data := by
    rw [String.data_append, String.data_append, String.data_append]
    exact List.mem_append.mpr (Or.inl (List.mem_append.mpr (Or.inr (by decide))))
  rw [e] at h
  exact absurd h (by decide)

lemma typeLine_ne_pinmux (s : String) : ("    type: " ++ s) ≠ "    pinmux:" := by
  apply ne_of_data_idx _ _ 4
  rw [data_idx_append1 _ _ 4 (by decide)]
  decide

lemma descLine_ne_pinmux (s : String) :
    ("    description: \"" ++ s ++ "\"") ≠ "    pinmux:" := by
  apply ne_of_data_idx _ _ 4
  rw [String.append_assoc, data_idx_append1 _ _ 4 (by decide)]
  decide

lemma notesLine_ne_pinmux (s : String) :
    ("    notes: \"" ++ s ++ "\"") ≠ "    pinmux:" := by
  apply ne_of_data_idx _ _ 4
  rw [String.append_assoc, data_idx_append1 _ _ 4 (by decide)]
  decide

lemma pinmuxEntryLine_ne_pinmux (e : PinmuxEntry) :
    pinmuxEntryLine e ≠ "    pinmux:" := by
  apply ne_of_data_idx _ _ 4
  rw [pinmuxEntryLine, String.append_assoc, String.append_assoc, String.append_assoc,
    data_idx_append1 _ _ 4 (by decide)]
  decide

lemma pinLine_ne_pinmux (p : Pin) : pinLine p ≠ "    pinmux:" := by
  apply ne_of_data_idx _ _ 4
  rw [pinLine, String.append_assoc, String.append_assoc, String.append_assoc,
    data_idx_append1 _ _ 4 (by decide)]
  decide

lemma partNumberLine_ne_pinmux (s : String) :
    ("  - part_number: " ++ s) ≠ "    pinmux:" := by
  apply ne_of_data_idx _ _ 2
  rw [data_idx_append1 _ _ 2 (by decide)]
  decide

lemma packageLine_ne_pinmux (s : String) :
    ("    package: " ++ s) ≠ "    pinmux:" := by
  apply ne_of_data_idx _ _ 5
  rw [data_idx_append1 _ _ 5 (by decide)]
  decide

lemma pinsAnchorLine_ne_pinmux (a : String) :
    ("    pins: &" ++ a) ≠ "    pinmux:" := by
  apply ne_of_data_idx _ _ 7
  rw [data_idx_append1 _ _ 7 (by decide)]
  decide

lemma pinsAliasLine_ne_pinmux (a : String) :
    ("    pins: *" ++ a) ≠ "    pinmux:" := by
  apply ne_of_data_idx _ _ 7
  rw [data_idx_append1 _ _ 7 (by decide)]
  decide

lemma headerLine_sv_ne_pinmux (s : String) :
    ("schema_version: " ++ s) ≠ "    pinmux:" := by
  apply ne_of_data_idx _ _ 0
  rw [data_idx_append1 _ _ 0 (by decide)]
  decide

lemma headerLine_mid_ne_pinmux (s : String) :
    ("model_id: " ++ s) ≠ "    pinmux:" := by
  apply ne_of_data_idx _ _ 0
  rw [data_idx_append1 _ _ 0 (by decide)]
  decide

lemma headerLine_lc_ne_pinmux (s : String) :
    ("lifecycle: " ++ s) ≠ "    pinmux:" := by
  apply ne_of_data_idx _ _ 0
  rw [data_idx_append1 _ _ 0 (by decide)]
  decide

lemma variantsLoop_nil (mid : String) (anchor? : Option String) :
    variantsLoop mid anchor? [] = .ok [] := rfl

lemma variantsLoop_cons_none_ok {mid : String} {v : Variant} {rest : List Variant}
    {ls : List String} :
    variantsLoop mid none (v :: rest) = .ok ls ↔
    ∃ pn desc pkg pins tail,
      v.part_number = some pn ∧ v.description = some desc ∧ v.package = some pkg ∧
      v.pins = some pins ∧
      variantsLoop mid (some (pinsAnchorName mid)) rest = .ok tail ∧
      ls = ("  - part_number: " ++ pn) :: ("    description: \"" ++ desc ++ "\"") ::
           ("    package: " ++ pkg) :: ("    pins: &" ++ pinsAnchorName mid) ::
           (pins.map pinLine ++ tail) := by
  cases hpn : v.part_number with
  | none => simp [variantsLoop, getKey, hpn]
  | some pn =>
    cases hdesc : v.description with
    | none => simp [variantsLoop, getKey, hpn, hdesc]
    | some desc =>
      cases hpkg : v.package with
      | none => simp [variantsLoop, getKey, hpn, hdesc, hpkg]
      | some pkg =>
        cases hpins : v.pins with
        | none => simp [variantsLoop, getKey, hpn, hdesc, hpkg, hpins]
        | some pins =>
          cases ht : variantsLoop mid (some (pinsAnchorName mid)) rest with
          | error e => simp [variantsLoop, getKey, hpn, hdesc, hpkg, hpins, ht]
          | ok tail =>
            constructor
            · intro h
              simp only [variantsLoop, getKey, hpn, hdesc, hpkg, hpins, ht, exceptBind_ok,
                exceptPure_ok, Except.ok.injEq] at h
              exact ⟨pn, desc, pkg, pins, tail, rfl, rfl, rfl, rfl, rfl, h.symm⟩
            · rintro ⟨pn', desc', pkg', pins', tail', hpn', hdesc', hpkg', hpins', ht'', rfl⟩
              injection hpn' with e1; subst e1
              injection hdesc' with e2; subst e2
              injection hpkg' with e3; subst e3
              injection hpins' with e4; subst e4
              injection ht'' with e5; subst e5
              simp only [variantsLoop, getKey, hpn, hdesc, hpkg, hpins, ht, exceptBind_ok,
                exceptPure_ok]
              rfl

lemma variantsLoop_cons_some_ok {mid a : String} {v : Variant} {rest : List Variant}
    {ls : List String} :
    variantsLoop mid (some a) (v :: rest) = .ok ls ↔
    ∃ pn desc pkg,
      v.part_number = some pn ∧ v.description = some desc ∧ v.package = some pkg ∧
      v.pins.isSome = true ∧
      ∃ tail, variantsLoop mid (some a) rest = .ok tail ∧
      ls = ("  - part_number: " ++ pn) :: ("    description: \"" ++ desc ++ "\"") ::
           ("    package: " ++ pkg) :: ("    pins: *" ++ a) :: tail := by
  cases hpn : v.part_number with
  | none => simp [variantsLoop, getKey, hpn]
  | some pn =>
    cases hdesc : v.description with
    | none => simp [variantsLoop, getKey, hpn, hdesc]
    | some desc =>
      cases hpkg : v.package with
      | none => simp [variantsLoop, getKey, hpn, hdesc, hpkg]
      | some pkg =>
        cases hpins : v.pins with
        | none => simp [variantsLoop, getKey, hpn, hdesc, hpkg, hpins]
        | some pins =>
          cases ht : variantsLoop mid (some a) rest with
          | error e => simp [variantsLoop, getKey, hpn, hdesc, hpkg, hpins, ht]
          | ok tail =>
            constructor
            · intro h
              simp only [variantsLoop, getKey, hpn, hdesc, hpkg, hpins, ht, exceptBind_ok,
                exceptPure_ok, Except.ok.injEq] at h
              exact ⟨pn, desc, pkg, rfl, rfl, rfl, rfl, tail, rfl, h.symm⟩
            · rintro ⟨pn', desc', pkg', hpn', hdesc', hpkg', -, tail', ht'', rfl⟩
              injection hpn' with e1; subst e1
              injection hdesc' with e2; subst e2
              injection hpkg' with e3; subst e3
              injection ht'' with e5; subst e5
              simp only [variantsLoop, getKey, hpn, hdesc, hpkg, hpins, ht, exceptBind_ok,
                exceptPure_ok]
              rfl

lemma variantsLoop_some_ok {mid a : String} {vs : List Variant} {ls : List String} :
    variantsLoop mid (some a) vs = .ok ls ↔
    (∀ v ∈ vs, v.part_number.isSome = true ∧ v.description.isSome = true ∧
       v.package.isSome = true ∧ v.pins.isSome = true) ∧
    ls = vs.flatMap (aliasVariantBlock a) := by
  induction vs generalizing ls with
  | nil =>
    rw [variantsLoop_nil]
    constructor
    · intro h
      injection h with h'
      exact ⟨fun v hv => absurd hv (List.not_mem_nil v), h'.symm⟩
    · rintro ⟨-, rfl⟩
      rfl
  | cons v rest ih =>
    rw [variantsLoop_cons_some_ok]
    constructor
    · rintro ⟨pn, desc, pkg, hpn, hdesc, hpkg, hpins, tail, ht, rfl⟩
      obtain ⟨hall, rfl⟩ := ih.mp ht
      refine ⟨?_, ?_⟩
      · intro u hu
        rcases List.mem_cons.mp hu with rfl | hu
        · exact ⟨by rw [hpn]; rfl, by rw [hdesc]; rfl, by rw [hpkg]; rfl, hpins⟩
        · exact hall u hu
      · simp [aliasVariantBlock, hpn, hdesc, hpkg]
    · rintro ⟨hall, rfl⟩
      obtain ⟨h1, h2, h3, h4⟩ := hall v (List.mem_cons_self v rest)
      obtain ⟨pn, hpn⟩ := Option.isSome_iff_exists.mp h1
      obtain ⟨desc, hdesc⟩ := Option.isSome_iff_exists.mp h2
      obtain ⟨pkg, hpkg⟩ := Option.isSome_iff_exists.mp h3
      refine ⟨pn, desc, pkg, hpn, hdesc, hpkg, h4,
        rest.flatMap (aliasVariantBlock a), ?_, ?_⟩
      · exact ih.mpr ⟨fun u hu => hall u (List.mem_cons_of_mem v hu), rfl⟩
      · simp [aliasVariantBlock, hpn, hdesc, hpkg]

lemma generate_ok_iff {c : ChipYaml} {pm : PinmuxData} {out : List String} :
    generate_series_yaml c pm = .ok out ↔
    ∃ sv mid lc docs pads vars vlines,
      c.schema_version = some sv ∧ c.model_id = some mid ∧ c.lifecycle = some lc ∧
      c.docs = some docs ∧ c.pads = some pads ∧ c.variants = some vars ∧
      variantsLoop mid none vars = .ok vlines ∧
      out = ("schema_version: " ++ sv) :: ("model_id: " ++ mid) :: ("lifecycle: " ++ lc) :: "" ::
            "docs:" :: (docs.flatMap docEntryLines ++ "" ::
            "pads:" :: (pads.flatMap (padBlock (pm.pinmux.getD [])) ++ "" ::
            "variants:" :: (vlines ++ [""]))) := by
  cases hsv : c.schema_version with
  | none => simp [generate_series_yaml, getKey, hsv]
  | some sv =>
  cases hmid : c.model_id with
  | none => simp [generate_series_yaml, getKey, hsv, hmid]
  | some mid =>
  cases hlc : c.lifecycle with
  | none => simp [generate_series_yaml, getKey, hsv, hmid, hlc]
  | some lc =>
  cases hdocs : c.docs with
  | none => simp [generate_series_yaml, getKey, hsv, hmid, hlc, hdocs]
  | some docs =>
  cases hpads : c.pads with
  | none => simp [generate_series_yaml, getKey, hsv, hmid, hlc, hdocs, hpads]
  | some pads =>
  cases hvars : c.variants with
  | none => simp [generate_series_yaml, getKey, hsv, hmid, hlc, hdocs, hpads, hvars]
  | some vars =>
  cases hvl : variantsLoop mid none vars with
  | error e => simp [generate_series_yaml, getKey, hsv, hmid, hlc, hdocs, hpads, hvars, hvl]
  | ok vlines =>
    constructor
    · intro h
      simp only [generate_series_yaml, getKey, hsv, hmid, hlc, hdocs, hpads, hvars, hvl,
        exceptBind_ok, exceptPure_ok, Except.ok.injEq] at h
      exact ⟨sv, mid, lc, docs, pads, vars, vlines, rfl, rfl, rfl, rfl, rfl, rfl, hvl, h.symm⟩
    · rintro ⟨sv', mid', lc', docs', pads', vars', vlines', hsv', hmid', hlc', hdocs', hpads',
        hvars', hvl'', rfl⟩
      injection hsv' with e1; subst e1
      injection hmid' with e2; subst e2
      injection hlc' with e3; subst e3
      injection hdocs' with e4; subst e4
      injection hpads' with e5; subst e5
      injection hvars' with e6; subst e6
      rw [hvl] at hvl''
      injection hvl'' with e7; subst e7
      simp only [generate_series_yaml, getKey, hsv, hmid, hlc, hdocs, hpads, hvars, hvl,
        exceptBind_ok, exceptPure_ok]

lemma count_marker_docs (docs : List DocEntry) :
    (docs.flatMap docEntryLines).count "    pinmux:" = 0 := by
  rw [List.count_eq_zero]
  intro hmem
  rw [List.mem_flatMap] at hmem
  obtain ⟨d, -, hd⟩ := hmem
  rw [docEntryLines, List.mem_map] at hd
  obtain ⟨pr, -, he⟩ := hd
  exact docLine_ne_pinmux pr.1 pr.2 he

lemma count_marker_entryLines (es : List PinmuxEntry) :
    (es.map pinmuxEntryLine).count "    pinmux:" = 0 := by
  rw [List.count_eq_zero]
  intro hmem
  rw [List.mem_map] at hmem
  obtain ⟨e, -, he⟩ := hmem
  exact pinmuxEntryLine_ne_pinmux e he

lemma count_marker_padBlock (pm : List (String × List PinmuxEntry)) (p : String × PadDef) :
    (padBlock pm p).count "    pinmux:" = if (pm.lookup p.1).isSome then 1 else 0 := by
  rcases p with ⟨name, d⟩
  rw [padBlock]
  rw [List.count_cons_of_ne (Ne.symm (padAnchor_ne_pinmux name))]
  rw [List.count_cons_of_ne (Ne.symm (typeLine_ne_pinmux d.type))]
  rw [List.count_append, List.count_append]
  have hdesc : (match d.description with
      | some s => ["    description: \"" ++ s ++ "\""]
      | none => []).count "    pinmux:" = 0 := by
    cases d.description with
    | none => rfl
    | some s =>
      rw [List.count_cons_of_ne (Ne.symm (descLine_ne_pinmux s))]
      rfl
  have hnotes : (match d.notes with
      | some s => ["    notes: \"" ++ s ++ "\""]
      | none => []).count "    pinmux:" = 0 := by
    cases d.notes with
    | none => rfl
    | some s =>
      rw [List.count_cons_of_ne (Ne.symm (notesLine_ne_pinmux s))]
      rfl
  rw [hdesc, hnotes]
  cases hlk : pm.lookup name with
  | none => rfl
  | some es =>
    rw [List.count_cons_self, count_marker_entryLines]
    rfl

lemma count_marker_padsFlat (pm : List (String × List PinmuxEntry))
    (pads : List (String × PadDef)) :
    (pads.flatMap (padBlock pm)).count "    pinmux:" =
    (pads.filter (fun p => (pm.lookup p.1).isSome)).length := by
  induction pads with
  | nil => rfl
  | cons p rest ih =>
    rw [List.flatMap_cons, List.count_append, count_marker_padBlock, ih, List.filter_cons]
    cases h : (pm.lookup p.1).isSome with
    | false => simp
    | true => simp [Nat.add_comm]

lemma marker_notin_variantsLoop {mid : String} {anchor? : Option String} {vs : List Variant}
    {ls : List String} (h : variantsLoop mid anchor? vs = .ok ls) :
    "    pinmux:" ∉ ls := by
  induction vs generalizing anchor? ls with
  | nil =>
    rw [variantsLoop_nil] at h
    cases h
    simp
  | cons v rest ih =>
    cases anchor? with
    | none =>
      obtain ⟨pn, desc, pkg, pins, tail, -, -, -, -, ht, rfl⟩ := variantsLoop_cons_none_ok.mp h
      intro hmem
      simp only [List.mem_cons, List.mem_append, List.mem_map] at hmem
      rcases hmem with h1 | h1 | h1 | h1 | ⟨p, -, h1⟩ | h1
      · exact partNumberLine_ne_pinmux pn h1.symm
      · exact descLine_ne_pinmux desc h1.symm
      · exact packageLine_ne_pinmux pkg h1.symm
      · exact pinsAnchorLine_ne_pinmux (pinsAnchorName mid) h1.symm
      · exact pinLine_ne_pinmux p h1
      · exact ih ht h1
    | some a =>
      obtain ⟨pn, desc, pkg, -, -, -, -, tail, ht, rfl⟩ := variantsLoop_cons_some_ok.mp h
      intro hmem
      simp only [List.mem_cons] at hmem
      rcases hmem with h1 | h1 | h1 | h1 | h1
      · exact partNumberLine_ne_pinmux pn h1.symm
      · exact descLine_ne_pinmux desc h1.symm
      · exact packageLine_ne_pinmux pkg h1.symm
      · exact pinsAliasLine_ne_pinmux a h1.symm
      · exact ih ht h1

lemma count_marker_generate {c : ChipYaml} {pm : PinmuxData} {out : List String}
    {pads : List (String × PadDef)}
    (h : generate_series_yaml c pm = .ok out) (hp : c.pads = some pads) :
    out.count "    pinmux:" =
    (pads.filter (fun p => ((pm.pinmux.getD []).lookup p.1).isSome)).length := by
  obtain ⟨sv, mid, lc, docs, pads', vars, vlines, -, -, -, -, hp', -, hvl, rfl⟩ :=
    generate_ok_iff.mp h
  rw [hp] at hp'
  injection hp' with hpp
  subst hpp
  rw [List.count_cons_of_ne (Ne.symm (headerLine_sv_ne_pinmux sv))]
  rw [List.count_cons_of_ne (Ne.symm (headerLine_mid_ne_pinmux mid))]
  rw [List.count_cons_of_ne (Ne.symm (headerLine_lc_ne_pinmux lc))]
  rw [List.count_cons_of_ne (by decide : ("    pinmux:" : String) ≠ "")]
  rw [List.count_cons_of_ne (by decide : ("    pinmux:" : String) ≠ "docs:")]
  rw [List.count_append, count_marker_docs]
  rw [List.count_cons_of_ne (by decide : ("    pinmux:" : String) ≠ "")]
  rw [List.count_cons_of_ne (by decide : ("    pinmux:" : String) ≠ "pads:")]
  rw [List.count_append, count_marker_padsFlat]
  rw [List.count_cons_of_ne (by decide : ("    pinmux:" : String) ≠ "")]
  rw [List.count_cons_of_ne (by decide : ("    pinmux:" : String) ≠ "variants:")]
  rw [List.count_append, List.count_eq_zero.mpr (marker_notin_variantsLoop hvl)]
  rw [List.count_cons_of_ne (by decide : ("    pinmux:" : String) ≠ ""), List.count_nil]
  omega

lemma sameMeta_aliasBlock {a : String} {u v : Variant} (h : sameMeta u v) :
    aliasVariantBlock a v = aliasVariantBlock a u := by
  rcases h with ⟨e1, e2, e3, -, -⟩
  rw [aliasVariantBlock, aliasVariantBlock, e1, e2, e3]

lemma forall₂_alias_flatMap {a : String} {vs vs' : List Variant}
    (h : List.Forall₂ sameMeta vs vs') :
    vs'.flatMap (aliasVariantBlock a) = vs.flatMap (aliasVariantBlock a) := by
  induction h with
  | nil => rfl
  | cons h1 h2 ih => rw [List.flatMap_cons, List.flatMap_cons, sameMeta_aliasBlock h1, ih]

lemma forall₂_fields {vs vs' : List Variant} (hf : List.Forall₂ sameMeta vs vs')
    (hall : ∀ v ∈ vs, v.part_number.isSome = true ∧ v.description.isSome = true ∧
      v.package.isSome = true ∧ v.pins.isSome = true) :
    ∀ v ∈ vs', v.part_number.isSome = true ∧ v.description.isSome = true ∧
      v.package.isSome = true ∧ v.pins.isSome = true := by
  induction hf with
  | nil => intro v hv; exact absurd hv (List.not_mem_nil v)
  | cons h1 h2 ih =>
    intro u hu
    rcases List.mem_cons.mp hu with rfl | hu
    · obtain ⟨f1, f2, f3, -⟩ := hall _ (List.mem_cons_self _ _)
      rcases h1 with ⟨e1, e2, e3, -, e5⟩
      exact ⟨by rw [← e1]; exact f1, by rw [← e2]; exact f2, by rw [← e3]; exact f3, e5⟩
    · exact ih (fun v hv => hall v (List.mem_cons_of_mem _ hv)) u hu

lemma padBlock_lookup_some (pm : List (String × List PinmuxEntry)) (p : String × PadDef)
    (es : List PinmuxEntry) (h : pm.lookup p.1 = some es) :
    ∃ base, padBlock pm p = base ++ ("    pinmux:" :: es.map pinmuxEntryLine) ∧
      "    pinmux:" ∉ base := by
  refine ⟨("  " ++ p.1 ++ ": &" ++ p.1) :: ("    type: " ++ p.2.type) ::
    ((match p.2.description with
      | some d => ["    description: \"" ++ d ++ "\""]
      | none => []) ++
     (match p.2.notes with
      | some n => ["    notes: \"" ++ n ++ "\""]
      | none => [])), ?_, ?_⟩
  · rw [padBlock, h]
    simp [List.append_assoc]
  · intro hmem
    simp only [List.mem_cons, List.mem_append] at hmem
    rcases hmem with h1 | h1 | h1 | h1
    · exact padAnchor_ne_pinmux p.1 h1.symm
    · exact typeLine_ne_pinmux p.2.type h1.symm
    · cases hd : p.2.description with
      | none => rw [hd] at h1; exact absurd h1 (List.not_mem_nil _)
      | some d =>
        rw [hd] at h1
        rcases List.mem_cons.mp h1 with h2 | h2
        · exact descLine_ne_pinmux d h2.symm
        · exact absurd h2 (List.not_mem_nil _)
    · cases hn : p.2.notes with
      | none => rw [hn] at h1; exact absurd h1 (List.not_mem_nil _)
      | some n =>
        rw [hn] at h1
        rcases List.mem_cons.mp h1 with h2 | h2
        · exact notesLine_ne_pinmux n h2.symm
        · exact absurd h2 (List.not_mem_nil _)

lemma padBlock_lookup_none (pm : List (String × List PinmuxEntry)) (p : String × PadDef)
    (h : pm.lookup p.1 = none) :
    "    pinmux:" ∉ padBlock pm p := by
  apply List.count_eq_zero.mp
  rw [count_marker_padBlock, h]
  rfl

lemma padBlock_within_out {c : ChipYaml} {pm : PinmuxData} {out : List String}
    {padsList : List (String × PadDef)}
    (hok : generate_series_yaml c pm = .ok out) (hp : c.pads = some padsList)
    {p : String × PadDef} (hmem : p ∈ padsList) :
    padBlock (pm.pinmux.getD []) p <:+: out := by
  obtain ⟨sv, mid, lc, docs, pads', vars, vlines, -, -, -, -, hp', -, -, rfl⟩ :=
    generate_ok_iff.mp hok
  rw [hp] at hp'
  injection hp' with hpp
  subst hpp
  obtain ⟨l1, l2, rfl⟩ := List.append_of_mem hmem
  refine ⟨("schema_version: " ++ sv) :: ("model_id: " ++ mid) :: ("lifecycle: " ++ lc) :: "" ::
    "docs:" :: (docs.flatMap docEntryLines ++ "" :: "pads:" ::
      (l1.flatMap (padBlock (pm.pinmux.getD [])))),
    l2.flatMap (padBlock (pm.pinmux.getD [])) ++ "" :: "variants:" :: (vlines ++ [""]), ?_⟩
  simp [List.flatMap_append, List.flatMap_cons, List.append_assoc]

lemma validate_memory_sip_eq_offenders (c : ChipYaml) (s : List String) :
    validate_memory_sip c s =
      (specSipOffenders c s).map (fun pr => sipErrMsg pr.1 pr.2 s) := by
  rw [validate_memory_sip, specSipOffenders, List.map_flatMap]
  congr 1
  funext v
  rw [List.map_filterMap]
  congr 1
  funext mem
  cases mem.mpi with
  | none => rfl
  | some mpi =>
    cases hc : !mpi.isEmpty && !s.contains mpi with
    | false => simp [hc]
    | true => simp [hc]

lemma mem_out_section {x : String} (sv mid lc : String)
    (docsflat padsflat vlines : List String) (hx : x ∈ vlines) :
    x ∈ ("schema_version: " ++ sv) :: ("model_id: " ++ mid) :: ("lifecycle: " ++ lc) :: "" ::
        "docs:" :: (docsflat ++ "" :: "pads:" :: (padsflat ++ "" :: "variants:" ::
          (vlines ++ [""]))) := by
  simp only [List.mem_cons, List.mem_append]
  tauto

/-! ## Concrete data for witnesses and counterexamples -/

/-- A minimal pad definition used in concrete runs. -/
def padW : PadDef := ⟨"io", none, none⟩

/-- First variant of the witness chip. -/
def v1W : Variant := ⟨some "P1", some "d1", some "Q48", some [⟨"1", "PA0"⟩], none⟩

/-- Second variant of the witness chip (same pins as the first). -/
def v2W : Variant := ⟨some "P2", some "d2", some "Q68", some [⟨"1", "PA0"⟩], none⟩

/-- A complete two-variant chip definition. -/
def chipW : ChipYaml :=
  ⟨some "1", some "M", some "ga", some [], some [("PA0", padW)], some [v1W, v2W], none⟩

/-- A shared pinmux table covering pad PA0. -/
def pmW : PinmuxData := ⟨some [("PA0", [⟨"U", "1"⟩])]⟩

/-- The merged output of `chipW` against `pmW`. -/
def outW : List String :=
  ["schema_version: 1", "model_id: M", "lifecycle: ga", "", "docs:",
   "", "pads:",
   "  PA0: &PA0", "    type: io", "    pinmux:", "      - \x7bfunction: U, select: 1\x7d",
   "", "variants:",
   "  - part_number: P1", "    description: \"d1\"", "    package: Q48",
   "    pins: &M_QFN68_PINS", "      - \x7bnumber: \"1\", pad: *PA0\x7d",
   "  - part_number: P2", "    description: \"d2\"", "    package: Q68",
   "    pins: *M_QFN68_PINS",
   ""]

/-! ## Claims -/

/-- C1: for every chip definition with a non-empty variants list, the merge
emits the first variant's pin list as the single defining (anchored) node —
the output carries the anchor line followed by the first variant's pin
content — and emits every subsequent variant's pins as a bare alias block,
chosen positionally; replacing every subsequent variant's pins data by any
other present pins list leaves the output unchanged, so the subsequent
variants' pins data is never read or compared against the first. -/
theorem c1_first_variant_anchor_rest_alias (c : ChipYaml) (pm : PinmuxData)
    (out : List String) (v0 : Variant) (rest : List Variant) (mid : String)
    (hok : generate_series_yaml c pm = .ok out)
    (hmid : c.model_id = some mid)
    (hvars : c.variants = some (v0 :: rest)) :
    (∃ pre pins, v0.pins = some pins ∧
      out = pre ++ ("    pins: &" ++ pinsAnchorName mid) ::
        (pins.map pinLine ++ (rest.flatMap (aliasVariantBlock (pinsAnchorName mid)) ++ [""]))) ∧
    (∀ rest', List.Forall₂ sameMeta rest rest' →
      generate_series_yaml { c with variants := some (v0 :: rest') } pm = .ok out) := by
  obtain ⟨sv, mid', lc, docs, pads, vars, vlines, hsv, hmid', hlc, hdocs, hpads, hvars', hvl,
    rfl⟩ := generate_ok_iff.mp hok
  rw [hmid] at hmid'
  injection hmid' with e1
  subst e1
  rw [hvars] at hvars'
  injection hvars' with e2
  subst e2
  obtain ⟨pn, desc, pkg, pins, tail, hpn, hdesc, hpkg, hpins, ht, rfl⟩ :=
    variantsLoop_cons_none_ok.mp hvl
  obtain ⟨hall, rfl⟩ := variantsLoop_some_ok.mp ht
  constructor
  · refine ⟨("schema_version: " ++ sv) :: ("model_id: " ++ mid) :: ("lifecycle: " ++ lc) ::
      "" :: "docs:" :: (docs.flatMap docEntryLines ++ "" :: "pads:" ::
        (pads.flatMap (padBlock (pm.pinmux.getD [])) ++ "" :: "variants:" ::
          [("  - part_number: " ++ pn), ("    description: \"" ++ desc ++ "\""),
           ("    package: " ++ pkg)])),
      pins, hpins, ?_⟩
    simp [List.append_assoc]
  · intro rest' hmetaF
    apply generate_ok_iff.mpr
    refine ⟨sv, mid, lc, docs, pads, v0 :: rest', _, hsv, hmid, hlc, hdocs, hpads, rfl, ?_, rfl⟩
    apply variantsLoop_cons_none_ok.mpr
    refine ⟨pn, desc, pkg, pins, rest.flatMap (aliasVariantBlock (pinsAnchorName mid)),
      hpn, hdesc, hpkg, hpins, ?_, rfl⟩
    exact variantsLoop_some_ok.mpr
      ⟨forall₂_fields hmetaF hall, (forall₂_alias_flatMap hmetaF).symm⟩

/-- Witness for C1: the hypotheses hold for the concrete chip `chipW`
(whose two variants have identical pins), and the theorem applies. -/
theorem c1_witness :
    generate_series_yaml chipW pmW = .ok outW ∧
    ((∃ pre pins, v1W.pins = some pins ∧
      outW = pre ++ ("    pins: &" ++ pinsAnchorName "M") ::
        (pins.map pinLine ++
          ([v2W].flatMap (aliasVariantBlock (pinsAnchorName "M")) ++ [""]))) ∧
    (∀ rest', List.Forall₂ sameMeta [v2W] rest' →
      generate_series_yaml { chipW with variants := some (v1W :: rest') } pmW = .ok outW)) :=
  ⟨rfl, c1_first_variant_anchor_rest_alias chipW pmW outW v1W [v2W] "M" rfl rfl rfl⟩

/-- C2: for every chip with pads P and a pinmux table covering a subset S
of P, the merged output contains exactly one `pinmux:` marker per pad
occurrence whose name is in S; each covered pad's block ends with the
shared table's entries, function and select values unchanged and in table
order; a pad outside S gets no pinmux field at all in its block. -/
theorem c2_pinmux_exactly_covered_pads (c : ChipYaml) (pm : PinmuxData)
    (out : List String) (padsList : List (String × PadDef))
    (hok : generate_series_yaml c pm = .ok out)
    (hp : c.pads = some padsList) :
    out.count "    pinmux:" =
      (padsList.filter (fun p => ((pm.pinmux.getD []).lookup p.1).isSome)).length ∧
    ∀ p ∈ padsList,
      padBlock (pm.pinmux.getD []) p <:+: out ∧
      (∀ es, (pm.pinmux.getD []).lookup p.1 = some es →
        ∃ base, padBlock (pm.pinmux.getD []) p =
          base ++ ("    pinmux:" :: es.map pinmuxEntryLine) ∧ "    pinmux:" ∉ base) ∧
      ((pm.pinmux.getD []).lookup p.1 = none →
        "    pinmux:" ∉ padBlock (pm.pinmux.getD []) p) := by
  refine ⟨count_marker_generate hok hp, ?_⟩
  intro p hmem
  exact ⟨padBlock_within_out hok hp hmem,
    fun es hes => padBlock_lookup_some _ p es hes,
    fun hnone => padBlock_lookup_none _ p hnone⟩

/-- Witness for C2: the concrete chip `chipW` (one pad, covered by the
table `pmW`) satisfies the hypotheses and the theorem applies. -/
theorem c2_witness :
    generate_series_yaml chipW pmW = .ok outW ∧
    (outW.count "    pinmux:" =
      (([("PA0", padW)]).filter
        (fun p => ((pmW.pinmux.getD []).lookup p.1).isSome)).length ∧
    ∀ p ∈ [("PA0", padW)],
      padBlock (pmW.pinmux.getD []) p <:+: outW ∧
      (∀ es, (pmW.pinmux.getD []).lookup p.1 = some es →
        ∃ base, padBlock (pmW.pinmux.getD []) p =
          base ++ ("    pinmux:" :: es.map pinmuxEntryLine) ∧ "    pinmux:" ∉ base) ∧
      ((pmW.pinmux.getD []).lookup p.1 = none →
        "    pinmux:" ∉ padBlock (pmW.pinmux.getD []) p)) :=
  ⟨rfl, c2_pinmux_exactly_covered_pads chipW pmW outW [("PA0", padW)] rfl rfl⟩

/-- C4: the anchor name given to the first variant's pin-list node is the
chip's model id followed by the one literal token `_QFN68_PINS`, and the
same token is used for the alias of every subsequent variant — regardless
of any variant's package field, which is universally quantified here. -/
theorem c4_anchor_is_model_id_fixed_token (c : ChipYaml) (pm : PinmuxData)
    (out : List String) (v0 : Variant) (rest : List Variant) (mid : String)
    (hok : generate_series_yaml c pm = .ok out)
    (hmid : c.model_id = some mid)
    (hvars : c.variants = some (v0 :: rest)) :
    ("    pins: &" ++ (mid ++ "_QFN68_PINS")) ∈ out ∧
    ∀ v ∈ rest, ("    pins: *" ++ (mid ++ "_QFN68_PINS")) ∈ out := by
  obtain ⟨sv, mid', lc, docs, pads, vars, vlines, hsv, hmid', hlc, hdocs, hpads, hvars', hvl,
    rfl⟩ := generate_ok_iff.mp hok
  rw [hmid] at hmid'
  injection hmid' with e1
  subst e1
  rw [hvars] at hvars'
  injection hvars' with e2
  subst e2
  obtain ⟨pn, desc, pkg, pins, tail, hpn, hdesc, hpkg, hpins, ht, rfl⟩ :=
    variantsLoop_cons_none_ok.mp hvl
  obtain ⟨hall, rfl⟩ := variantsLoop_some_ok.mp ht
  constructor
  · apply mem_out_section
    exact List.mem_cons_of_mem _ (List.mem_cons_of_mem _ (List.mem_cons_of_mem _
      (List.mem_cons_self _ _)))
  · intro v hv
    apply mem_out_section
    refine List.mem_cons_of_mem _ (List.mem_cons_of_mem _ (List.mem_cons_of_mem _
      (List.mem_cons_of_mem _ (List.mem_append_right _ ?_))))
    rw [List.mem_flatMap]
    refine ⟨v, hv, ?_⟩
    rw [aliasVariantBlock]
    exact List.mem_cons_of_mem _ (List.mem_cons_of_mem _ (List.mem_cons_of_mem _
      (List.mem_cons_self _ _)))

/-- Witness for C4: the theorem applies to the concrete chip `chipW`. -/
theorem c4_witness :
    generate_series_yaml chipW pmW = .ok outW ∧
    (("    pins: &" ++ ("M" ++ "_QFN68_PINS")) ∈ outW ∧
     ∀ v ∈ [v2W], ("    pins: *" ++ ("M" ++ "_QFN68_PINS")) ∈ outW) :=
  ⟨rfl, c4_anchor_is_model_id_fixed_token chipW pmW outW v1W [v2W] "M" rfl rfl rfl⟩

/-- A chip naming a shared pinmux table, used for the C8 witness. -/
def chipS : ChipYaml :=
  ⟨some "1", some "S", some "ga", some [], some [("PA0", padW)], some [v1W], some "tbl"⟩

/-- The merged output of `chipS` against the empty pinmux table. -/
def outS : List String :=
  ["schema_version: 1", "model_id: S", "lifecycle: ga", "", "docs:",
   "", "pads:", "  PA0: &PA0", "    type: io",
   "", "variants:",
   "  - part_number: P1", "    description: \"d1\"", "    package: Q48",
   "    pins: &S_QFN68_PINS", "      - \x7bnumber: \"1\", pad: *PA0\x7d",
   ""]

/-- A file system with no pinmux tables at all. -/
def lkAbsent : String → FileResult PinmuxData := fun _ => .absent

/-- C8: when a chip names a shared pinmux table whose file does not exist,
the build of that chip still succeeds: the warning is surfaced, the table
is treated as empty, the merged output is written with no pinmux field on
any pad, and `build_chip` returns `True`. -/
theorem c8_missing_pinmux_warns_and_builds (chip : ChipYaml) (name : String)
    (lookupPinmux : String → FileResult PinmuxData) (out : List String)
    (hsp : chip.shared_pinmux = some name)
    (hmiss : lookupPinmux name = .absent)
    (hgen : generate_series_yaml chip emptyPinmux = .ok out) :
    build_chip (.parsed chip) lookupPinmux =
      .done [pinmuxWarning name] (some out) true ∧
    out.count "    pinmux:" = 0 := by
  constructor
  · simp only [build_chip, hsp, hmiss, hgen]
  · obtain ⟨sv, mid, lc, docs, pads, vars, vlines, -, -, -, -, hpads, -, -, -⟩ :=
      generate_ok_iff.mp hgen
    rw [count_marker_generate hgen hpads]
    simp [emptyPinmux]

/-- Witness for C8: the chip `chipS` names the table `tbl`, absent from
the file system `lkAbsent`; the theorem applies. -/
theorem c8_witness :
    generate_series_yaml chipS emptyPinmux = .ok outS ∧
    (build_chip (.parsed chipS) lkAbsent = .done [pinmuxWarning "tbl"] (some outS) true ∧
     outS.count "    pinmux:" = 0) :=
  ⟨rfl, c8_missing_pinmux_warns_and_builds chipS "tbl" lkAbsent outS rfl rfl rfl⟩

/-- A chip whose `chip.yaml` lacks the required `schema_version` key. -/
def badChip : ChipYaml := ⟨none, some "B", some "ga", some [], some [], some [], none⟩

/-- A complete, valid chip definition. -/
def goodChip : ChipYaml := ⟨some "1", some "G", some "ga", some [], some [], some [], none⟩

/-- The merged output of `goodChip`. -/
def goodOut : List String :=
  ["schema_version: 1", "model_id: G", "lifecycle: ga", "", "docs:", "", "pads:", "",
   "variants:", ""]

/-- Counterexample to C3: building the sibling list `a` (missing
`schema_version`) then `b` (well-formed) stops at `a` with a raised
`KeyError`; nothing is written — `b` is never processed — even though
building `b` alone would succeed. A per-chip failure aborts the whole
build run, not only that chip. -/
theorem c3_counterexample :
    (build_all lkAbsent [("a", .parsed badChip), ("b", .parsed goodChip)]
      ⟨[], [], true⟩).2 = some (PyError.keyError "schema_version") ∧
    (build_all lkAbsent [("a", .parsed badChip), ("b", .parsed goodChip)]
      ⟨[], [], true⟩).1.written = [] ∧
    build_chip (.parsed goodChip) lkAbsent = .done [] (some goodOut) true :=
  ⟨rfl, rfl, rfl⟩

/-- C3 (amended): during a build over multiple chips, a per-chip failure
(missing required key or malformed YAML, raised as an exception inside
`build_chip`) aborts the whole run at that chip — the siblings after it
are never processed; only an absent `chip.yaml` is handled locally (that
chip is skipped and the run continues). -/
theorem c3_amended_failure_aborts_run (lookupPinmux : String → FileResult PinmuxData) :
    (∀ name cf rest st w e, build_chip cf lookupPinmux = .raised w e →
      build_all lookupPinmux ((name, cf) :: rest) st =
        ({ st with warnings := st.warnings ++ w }, some e)) ∧
    (∀ name rest st,
      build_all lookupPinmux ((name, FileResult.absent) :: rest) st =
        build_all lookupPinmux rest st) := by
  constructor
  · intro name cf rest st w e h
    simp only [build_all, h]
  · intro name rest st
    rcases st with ⟨sw, swarn, ssucc⟩
    simp [build_all, build_chip]

/-- Witness for C3 (amended): the failing chip `badChip` raises a
`KeyError` and the run aborts there with the state so far. -/
theorem c3_amended_witness :
    build_chip (.parsed badChip) lkAbsent =
      .raised [] (PyError.keyError "schema_version") ∧
    build_all lkAbsent [("a", .parsed badChip), ("b", .parsed goodChip)] ⟨[], [], true⟩ =
      ({ written := [], warnings := [] ++ [], success := true },
       some (PyError.keyError "schema_version")) :=
  ⟨rfl, (c3_amended_failure_aborts_run lkAbsent).1 "a" (.parsed badChip)
    [("b", .parsed goodChip)] ⟨[], [], true⟩ [] (PyError.keyError "schema_version") rfl⟩

/-- C10: `build_chip` returns `True` on every execution that terminates
normally (including an absent `chip.yaml`), so the driver's `success`
flag is never cleared: the "Build completed with errors" branch is
unreachable except through an uncaught exception. -/
theorem c10_build_chip_always_true :
    (∀ cf lookupPinmux w wr b,
      build_chip cf lookupPinmux = BuildStep.done w wr b → b = true) ∧
    (∀ lookupPinmux chips st,
      (build_all lookupPinmux chips st).1.success = st.success) := by
  have h1 : ∀ cf lookupPinmux w wr b,
      build_chip cf lookupPinmux = BuildStep.done w wr b → b = true := by
    intro cf lookupPinmux w wr b h
    cases cf with
    | absent =>
      injection h with h1 h2 h3
      exact h3.symm
    | malformed e => exact BuildStep.noConfusion h
    | parsed chip =>
      cases hsp : chip.shared_pinmux with
      | none =>
        cases hgen : generate_series_yaml chip emptyPinmux with
        | error e => simp [build_chip, hsp, hgen] at h
        | ok content =>
          simp [build_chip, hsp, hgen] at h
          rcases h with ⟨-, -, h3⟩
          exact h3
      | some name =>
        cases hlk : lookupPinmux name with
        | malformed e => simp [build_chip, hsp, hlk] at h
        | absent =>
          cases hgen : generate_series_yaml chip emptyPinmux with
          | error e => simp [build_chip, hsp, hlk, hgen] at h
          | ok content =>
            simp [build_chip, hsp, hlk, hgen] at h
            rcases h with ⟨-, -, h3⟩
            exact h3
        | parsed pd =>
          cases hgen : generate_series_yaml chip pd with
          | error e => simp [build_chip, hsp, hlk, hgen] at h
          | ok content =>
            simp [build_chip, hsp, hlk, hgen] at h
            rcases h with ⟨-, -, h3⟩
            exact h3
  refine ⟨h1, ?_⟩
  intro lookupPinmux chips
  induction chips with
  | nil => intro st; rfl
  | cons pr rest ih =>
    intro st
    rcases pr with ⟨name, cf⟩
    cases hb : build_chip cf lookupPinmux with
    | raised w e => simp only [build_all, hb]
    | done w wr ret =>
      rw [h1 cf lookupPinmux w wr ret hb] at hb
      simp only [build_all, hb, ih, Bool.and_true]

/-- Witness for C10: applied to the skip path (absent `chip.yaml`) and to
a concrete two-chip run that terminates normally with `success` intact. -/
theorem c10_witness :
    true = true ∧
    (build_all lkAbsent [("a", FileResult.absent), ("b", .parsed goodChip)]
      ⟨[], [], true⟩).1.success = true :=
  ⟨c10_build_chip_always_true.1 FileResult.absent lkAbsent [] none true rfl,
   c10_build_chip_always_true.2 lkAbsent [("a", FileResult.absent), ("b", .parsed goodChip)]
     ⟨[], [], true⟩⟩

lemma mem_get_sip_mpis (mpi : MpiData) (n : String) :
    n ∈ get_sip_mpis mpi ↔
    ∃ cfg, (n, cfg) ∈ mpi.mpis.getD [] ∧ cfg.sip.getD false = true := by
  rw [get_sip_mpis, List.mem_filterMap]
  constructor
  · rintro ⟨pr, hpr, hif⟩
    cases hb : pr.2.sip.getD false with
    | false => simp [hb] at hif
    | true =>
      simp only [hb, if_true] at hif
      injection hif with he
      subst he
      exact ⟨pr.2, hpr, hb⟩
  · rintro ⟨cfg, hmem, hsip⟩
    exact ⟨(n, cfg), hmem, by simp [hsip]⟩

/-- C5: the SiP memory check runs only when the parsed chip has a truthy
`shared_pinmux` and an MPI config exists at the conventional location for
that name — otherwise it is vacuously true (success with no messages).
When it runs it collects the set of MPI names whose config has a true
`sip` flag, and the result lists exactly one violation per memory entry
referencing an MPI name outside that set, naming the variant's part
number and the offending MPI name. -/
theorem c5_sip_check_conditions_and_violations (chipFile : FileResult ChipYaml)
    (mpiFiles : String → FileResult MpiData) :
    (∀ c, chipFile = .parsed c → (c.shared_pinmux = none ∨ c.shared_pinmux = some "") →
      validate_chip_source chipFile mpiFiles = (true, [])) ∧
    (∀ c sp, chipFile = .parsed c → c.shared_pinmux = some sp → sp.isEmpty = false →
      mpiFiles sp = .absent → validate_chip_source chipFile mpiFiles = (true, [])) ∧
    (∀ c sp mpi, chipFile = .parsed c → c.shared_pinmux = some sp → sp.isEmpty = false →
      mpiFiles sp = .parsed mpi →
      ((∀ n, n ∈ get_sip_mpis mpi ↔
          ∃ cfg, (n, cfg) ∈ mpi.mpis.getD [] ∧ cfg.sip.getD false = true) ∧
       validate_chip_source chipFile mpiFiles =
         (((specSipOffenders c (get_sip_mpis mpi)).map
             (fun pr => sipErrMsg pr.1 pr.2 (get_sip_mpis mpi))).isEmpty,
          (specSipOffenders c (get_sip_mpis mpi)).map
            (fun pr => sipErrMsg pr.1 pr.2 (get_sip_mpis mpi))))) := by
  refine ⟨?_, ?_, ?_⟩
  · rintro c rfl (hsp | hsp)
    · simp [validate_chip_source, hsp]
    · have hem : ("" : String).isEmpty = true := rfl
      simp [validate_chip_source, hsp, hem]
  · rintro c sp rfl hsp hne habs
    simp [validate_chip_source, hsp, hne, habs]
  · rintro c sp mpi rfl hsp hne hparsed
    refine ⟨mem_get_sip_mpis mpi, ?_⟩
    rw [← validate_memory_sip_eq_offenders]
    simp only [validate_chip_source, hsp, hne, hparsed, Bool.false_eq_true, if_false]
    cases he : (validate_memory_sip c (get_sip_mpis mpi)).isEmpty with
    | true =>
      rw [List.isEmpty_iff.mp he]
      rfl
    | false => simp [he]

/-- A chip whose memory entries reference an MPI outside the SiP set. -/
def chipC7 : ChipYaml :=
  ⟨some "1", some "M", some "ga", some [], some [],
   some [⟨some "P1", none, none, none, some [⟨some "m"⟩]⟩], some "x"⟩

/-- A file system whose every MPI config parses to an empty table. -/
def lkMpiEmpty : String → FileResult MpiData := fun _ => .parsed ⟨some []⟩

/-- A file system with no MPI configs at all. -/
def lkMpiAbsent : String → FileResult MpiData := fun _ => .absent

/-- Witness for C5: all three branches apply to concrete data — a falsy
`shared_pinmux` skips, an absent MPI config skips, and against the empty
MPI table the chip `chipC7` yields exactly its one offending entry. -/
theorem c5_witness :
    validate_chip_source (.parsed goodChip) lkMpiEmpty = (true, []) ∧
    validate_chip_source (.parsed chipC7) lkMpiAbsent = (true, []) ∧
    validate_chip_source (.parsed chipC7) lkMpiEmpty =
      (((specSipOffenders chipC7 (get_sip_mpis ⟨some []⟩)).map
          (fun pr => sipErrMsg pr.1 pr.2 (get_sip_mpis ⟨some []⟩))).isEmpty,
       (specSipOffenders chipC7 (get_sip_mpis ⟨some []⟩)).map
         (fun pr => sipErrMsg pr.1 pr.2 (get_sip_mpis ⟨some []⟩))) :=
  ⟨((c5_sip_check_conditions_and_violations (.parsed goodChip) lkMpiEmpty).1 goodChip rfl
      (Or.inl rfl)),
   ((c5_sip_check_conditions_and_violations (.parsed chipC7) lkMpiAbsent).2.1 chipC7 "x" rfl
      rfl rfl rfl),
   ((c5_sip_check_conditions_and_violations (.parsed chipC7) lkMpiEmpty).2.2 chipC7 "x"
      ⟨some []⟩ rfl rfl rfl rfl).2⟩

/-- C6: a chip's validation verdict is the conjunction of the structural
schema check and the domain check — either failing makes the chip invalid
(stated for a chip whose source directory exists, where the domain check
is consulted); when the structural check fails, all schema violations are
collected, each formatted as its dotted path plus message. -/
theorem c6_verdict_conjunction_all_collected {α : Type}
    (check : α → List SchemaViolation) (sf : FileResult α) (srcEx : Bool)
    (cf : FileResult ChipYaml) (mpiFiles : String → FileResult MpiData) :
    (srcEx = true →
      (isInvalid (process_one check sf srcEx cf mpiFiles) = true ↔
        ¬((validate_chip sf check).1 = true ∧
          (validate_chip_source cf mpiFiles).1 = true))) ∧
    (∀ doc, sf = .parsed doc → check doc ≠ [] →
      process_one check sf srcEx cf mpiFiles =
        .invalid ((check doc).map violationLine)) := by
  constructor
  · rintro rfl
    rcases hr : validate_chip sf check with ⟨b1, msgs1⟩
    rcases hs : validate_chip_source cf mpiFiles with ⟨b2, msgs2⟩
    cases b1 with
    | false => simp [process_one, hr, hs, isInvalid]
    | true =>
      cases b2 with
      | false => simp [process_one, hr, hs, isInvalid]
      | true =>
        cases msgs1 with
        | nil => simp [process_one, hr, hs, isInvalid]
        | cons m ms => simp [process_one, hr, hs, isInvalid]
  · rintro doc rfl hne
    have hfalse : (check doc).isEmpty = false := by
      cases hd : check doc with
      | nil => exact absurd hd hne
      | cons a l => rfl
    simp [process_one, validate_chip, hfalse]

/-- The schema-check capability used by the C6 witness: one violation. -/
def checkC6 : Unit → List SchemaViolation := fun _ => [⟨["variants", "0"], "bad"⟩]

/-- Witness for C6: a document with one schema violation, source present
but trivially passing the domain check. -/
theorem c6_witness :
    (isInvalid (process_one checkC6 (FileResult.parsed ()) true FileResult.absent
        lkMpiAbsent) = true ↔
      ¬((validate_chip (FileResult.parsed ()) checkC6).1 = true ∧
        (validate_chip_source FileResult.absent lkMpiAbsent).1 = true)) ∧
    process_one checkC6 (FileResult.parsed ()) true FileResult.absent lkMpiAbsent =
      .invalid ((checkC6 ()).map violationLine) :=
  ⟨(c6_verdict_conjunction_all_collected checkC6 (FileResult.parsed ()) true
      FileResult.absent lkMpiAbsent).1 rfl,
   (c6_verdict_conjunction_all_collected checkC6 (FileResult.parsed ()) true
      FileResult.absent lkMpiAbsent).2 () rfl (by decide)⟩

/-- The always-empty schema-check capability. -/
def checkNone : Unit → List SchemaViolation := fun _ => []

/-- Counterexample to C7: for the chip `chipC7`, whose `series.yaml` is
absent but whose source `chip.yaml` violates the SiP memory rule, the
validator reports the chip INVALID (not skipped) and the run's overall
success flips to failure — so a missing series document does not always
yield a "skipped" report. -/
theorem c7_counterexample :
    process_one checkNone FileResult.absent true (FileResult.parsed chipC7) lkMpiEmpty =
      ChipReport.invalid [sipErrMsg "P1" "m" []] ∧
    (tally ⟨0, 0, true⟩ (ChipReport.invalid [sipErrMsg "P1" "m" []])).all_success = false :=
  ⟨rfl, rfl⟩

/-- C7 (amended): a chip whose `series.yaml` does not exist is reported as
skipped — `validate_chip` returns success with the skip message, and the
skipped report leaves the run's counters and overall success untouched —
provided the source-side SiP check does not itself fail (when it does,
the chip is reported invalid despite the missing document). -/
theorem c7_amended_missing_series_skipped {α : Type}
    (check : α → List SchemaViolation) (srcEx : Bool) (cf : FileResult ChipYaml)
    (mpiFiles : String → FileResult MpiData)
    (h : srcEx = false ∨ (validate_chip_source cf mpiFiles).1 = true) :
    validate_chip (FileResult.absent : FileResult α) check =
      (true, ["Skipped: no series.yaml found"]) ∧
    process_one check FileResult.absent srcEx cf mpiFiles =
      .skipped "Skipped: no series.yaml found" ∧
    ∀ s : Summary, tally s (ChipReport.skipped "Skipped: no series.yaml found") = s := by
  refine ⟨rfl, ?_, fun s => rfl⟩
  cases srcEx with
  | false => simp [process_one, validate_chip]
  | true =>
    have hok : (validate_chip_source cf mpiFiles).1 = true := by
      rcases h with h | h
      · simp at h
      · exact h
    rcases hs : validate_chip_source cf mpiFiles with ⟨b2, msgs2⟩
    rw [hs] at hok
    subst hok
    simp [process_one, validate_chip, hs]

/-- Witness for C7 (amended): a chip with no source directory and one
with a passing domain check are both reported skipped, leaving a concrete
summary unchanged. -/
theorem c7_amended_witness :
    validate_chip (FileResult.absent : FileResult Unit) checkNone =
      (true, ["Skipped: no series.yaml found"]) ∧
    process_one checkNone FileResult.absent true (FileResult.parsed goodChip) lkMpiEmpty =
      .skipped "Skipped: no series.yaml found" ∧
    ∀ s : Summary, tally s (ChipReport.skipped "Skipped: no series.yaml found") = s :=
  c7_amended_missing_series_skipped checkNone true (FileResult.parsed goodChip) lkMpiEmpty
    (Or.inr rfl)

/-- C9: a memory entry whose `mpi` key is absent or whose value is falsy
(the empty string) never produces a SiP violation, for any chip data and
any SiP set — even though such a value is not a member of the set. -/
theorem c9_falsy_mpi_never_violates (c : ChipYaml) (s : List String)
    (h : ∀ v ∈ c.variants.getD [], ∀ m ∈ v.memory.getD [],
      m.mpi = none ∨ m.mpi = some "") :
    validate_memory_sip c s = [] := by
  rw [validate_memory_sip]
  rw [List.flatMap_eq_nil_iff]
  intro v hv
  rw [List.filterMap_eq_nil_iff]
  intro m hm
  rcases h v hv m hm with hmpi | hmpi
  · rw [hmpi]
  · rw [hmpi]
    rfl

/-- A chip whose only memory entries have an absent or empty `mpi`. -/
def chipC9 : ChipYaml :=
  ⟨some "1", some "M", some "ga", some [], some [],
   some [⟨some "P", none, none, none, some [⟨none⟩, ⟨some ""⟩]⟩], none⟩

/-- Witness for C9: the chip `chipC9` carries one absent-`mpi` and one
empty-`mpi` memory entry; no violation is produced even against a
non-empty SiP set it does not belong to. -/
theorem c9_witness : validate_memory_sip chipC9 ["A"] = [] :=
  c9_falsy_mpi_never_violates chipC9 ["A"] (by decide)

end SiliconSchema
